import Mathlib

/-!
Shallow embedding of `license_header_hook.py`: the comment-style registry and
the license-header detection / removal / rewrite pipeline.  File contents are
modelled as `List Char`; Python's `str.split("\n")` / `"\n".join` become
`pySplitLines` / `joinLines`, and the per-line string operations (`strip`,
`rstrip`, `startswith`, `in`, `endswith`) are defined below with Python's
semantics.
-/

abbrev Str := List Char

/-- The whitespace characters stripped by Python's `str.strip()` /
`str.rstrip()` for ASCII text: space, tab, newline, carriage return,
vertical tab and form feed. -/
def isWsChar (c : Char) : Bool :=
  c = ' ' || c = '\t' || c = '\n' || c = '\r' || c = '\x0b' || c = '\x0c'

/-- Python `s.strip()`. -/
def pyStrip (s : Str) : Str :=
  ((s.dropWhile isWsChar).reverse.dropWhile isWsChar).reverse

/-- Python `s.rstrip()`. -/
def pyRStrip (s : Str) : Str :=
  (s.reverse.dropWhile isWsChar).reverse

/-- Python `s.lstrip("\n")`. -/
def pyLStripNL (s : Str) : Str :=
  s.dropWhile (fun c => c = '\n')

/-- Python `p` `.isPrefixOf` test: `s.startswith(p)` is `isPre p s`. -/
def isPre : Str → Str → Bool
  | [], _ => true
  | _ :: _, [] => false
  | a :: as, b :: bs => if a = b then isPre as bs else false

/-- Python `s.endswith(suf)`. -/
def isSuf (suf s : Str) : Bool :=
  isPre suf.reverse s.reverse

/-- Python substring test `sub in s`. -/
def containsSub (s sub : Str) : Bool :=
  if isPre sub s then true else
    match s with
    | [] => false
    | _ :: rest => containsSub rest sub

/-- Python `s.split(sep)` for a one-character separator: always returns at
least one piece, keeps empty pieces. -/
def splitOnChar (sep : Char) : Str → List Str
  | [] => [[]]
  | c :: rest =>
    if c = sep then [] :: splitOnChar sep rest
    else
      match splitOnChar sep rest with
      | [] => [[c]]
      | l :: ls => (c :: l) :: ls

/-- Python `file_content.split("\n")`. -/
def pySplitLines (s : Str) : List Str := splitOnChar '\n' s

/-- Python `"\n".join(lines)`. -/
def joinLines : List Str → Str
  | [] => []
  | [l] => l
  | l :: l₂ :: ls => l ++ '\n' :: joinLines (l₂ :: ls)

/-- Python `s[:-n]` for `n = len(marker)`: when `n = 0` this is `s[:0] = ""`
(the Python quirk of a negative-zero slice), otherwise it drops the final `n`
characters. -/
def takeAllButLast (s : Str) (n : Nat) : Str :=
  if n = 0 then [] else s.take (s.length - n)

/-- Python `str.lower()` (ASCII case folding). -/
def pyLower (s : Str) : Str := s.map Char.toLower

/-- A comment dialect: `start` / `middle` / `end` markers
(`CommentRegistry` values in the source). -/
structure CommentStyle where
  start : Str
  middle : Str
  «end» : Str
deriving DecidableEq

/-- The first line of a shebang, `"#!"`. -/
def shebangMarker : Str := "#!".toList

/-- The shebang handling shared by `extract_existing_header`,
`remove_existing_header` and `process_file`: if the first line starts with
`"#!"` it is split off as the preserved prefix. -/
def shebangSplit (lines : List Str) : List Str × List Str :=
  match lines with
  | [] => ([], [])
  | l :: ls => if isPre shebangMarker l then ([l], ls) else ([], l :: ls)

/-- The `while start_idx < len(lines) and not lines[start_idx].strip()` loops:
drop leading blank (whitespace-only) lines. -/
def skipBlank : List Str → List Str
  | [] => []
  | l :: ls => if pyStrip l = [] then skipBlank ls else l :: ls

/-- `LicenseHeaderManager.create_header_comment`: wrap rendered template text
in the dialect's comment markers. -/
def create_header_comment (content : Str) (cs : CommentStyle) : Str :=
  if cs.start = cs.middle ∧ cs.middle = cs.«end» then
    joinLines ((pySplitLines content).map fun l => pyRStrip (cs.start ++ ' ' :: l))
  else
    joinLines (cs.start :: ((pySplitLines content).map fun l => pyRStrip (cs.middle ++ ' ' :: l)) ++ [cs.«end»])

/-- The single-line-comment collection loop of `extract_existing_header`:
collect stripped lines beginning with `start`, skip blank lines, stop at the
first other line. -/
def collectLineHeader (cs : CommentStyle) : List Str → List Str
  | [] => []
  | l :: ls =>
    if isPre cs.start (pyStrip l) then pyStrip l :: collectLineHeader cs ls
    else if pyStrip l = [] then collectLineHeader cs ls
    else []

/-- The multi-line-comment collection loop of `extract_existing_header`:
collect original lines up to and including the first line whose stripped text
contains `end`. -/
def collectBlockHeader (cs : CommentStyle) : List Str → List Str
  | [] => []
  | l :: ls =>
    if containsSub (pyStrip l) cs.«end» then [l]
    else l :: collectBlockHeader cs ls

/-- The `return "\n".join(header_lines) if header_lines else None` tails. -/
def headerOrNone (hs : List Str) : Option Str :=
  if hs = [] then none else some (joinLines hs)

/-- `LicenseHeaderManager.extract_existing_header`. -/
def extract_existing_header (fc : Str) (cs : CommentStyle) : Option Str :=
  match skipBlank (shebangSplit (pySplitLines fc)).2 with
  | [] => none
  | first :: rest₂ =>
    if cs.start = cs.middle then
      if isPre cs.start (pyStrip first) then headerOrNone (collectLineHeader cs (first :: rest₂))
      else none
    else
      if isPre cs.start (pyStrip first) then headerOrNone (collectBlockHeader cs (first :: rest₂))
      else none

/-- The single-line-comment matching loop of `remove_existing_header`:
consume lines matching the expected header lines (compared after stripping),
stopping at the first mismatch. -/
def matchHeaderLines : List Str → List Str → List Str
  | [], ls => ls
  | _ :: _, [] => []
  | e :: es, l :: ls => if pyStrip l = pyStrip e then matchHeaderLines es ls else l :: ls

/-- The multi-line-comment consumption loop of `remove_existing_header`:
drop lines up to and including the first line containing `end`
(tested on the unstripped line, unlike detection). -/
def dropBlockEnd (cs : CommentStyle) : List Str → List Str
  | [] => []
  | l :: ls => if containsSub l cs.«end» then ls else dropBlockEnd cs ls

/-- `LicenseHeaderManager.remove_existing_header`. -/
def remove_existing_header (fc : Str) (cs : CommentStyle) : Str :=
  match extract_existing_header fc cs with
  | none => fc
  | some hdr =>
    if hdr = [] then fc
    else
      match skipBlank (shebangSplit (pySplitLines fc)).2 with
      | [] => fc
      | first :: rest₂ =>
        if cs.start = cs.middle then
          joinLines ((shebangSplit (pySplitLines fc)).1
            ++ skipBlank (matchHeaderLines (pySplitLines hdr) (first :: rest₂)))
        else if isPre cs.start (pyStrip first) then
          joinLines ((shebangSplit (pySplitLines fc)).1
            ++ skipBlank (dropBlockEnd cs (first :: rest₂)))
        else
          joinLines ((shebangSplit (pySplitLines fc)).1 ++ (first :: rest₂))

/-- `LicenseHeaderManager._extract_header_content`, multi-line branch:
walks the lines with an `i == 0` flag and Python's `break` at the end line. -/
def blockContent (cs : CommentStyle) : List Str → Bool → List Str
  | [], _ => []
  | l :: ls, isFirst =>
    let s := pyStrip l
    if isFirst ∧ isPre cs.start s = true then
      let c := pyStrip (s.drop cs.start.length)
      (if c = [] then [] else [c]) ++ blockContent cs ls false
    else if isSuf cs.«end» s then
      let c₀ := pyStrip (takeAllButLast s cs.«end».length)
      let c :=
        if isPre (pyStrip cs.middle) c₀ then pyStrip (c₀.drop (pyStrip cs.middle).length)
        else c₀
      if c = [] then [] else [c]
    else if isPre (pyStrip cs.middle) s then
      pyStrip (s.drop (pyStrip cs.middle).length) :: blockContent cs ls false
    else
      blockContent cs ls false

/-- `LicenseHeaderManager._extract_header_content`. -/
def extract_header_content (header : Str) (cs : CommentStyle) : Str :=
  let lines := pySplitLines header
  if cs.start = cs.middle then
    joinLines (lines.filterMap fun l =>
      if isPre cs.start (pyStrip l) then some (pyStrip ((pyStrip l).drop cs.start.length))
      else none)
  else
    joinLines (blockContent cs lines true)

/-- Helper for `replaceSub`: `skip` counts characters still covered by the
match just replaced. -/
def replaceSubAux (pat rep : Str) : Nat → Str → Str
  | _, [] => []
  | n + 1, _ :: s => replaceSubAux pat rep n s
  | 0, c :: s =>
    if pat ≠ [] ∧ isPre pat (c :: s) = true then
      rep ++ replaceSubAux pat rep (pat.length - 1) s
    else
      c :: replaceSubAux pat rep 0 s

/-- Python `s.replace(pat, rep)` for a fixed non-empty pattern (used to model
`str.format`): scans left to right, replacing non-overlapping occurrences. -/
def replaceSub (pat rep s : Str) : Str :=
  replaceSubAux pat rep 0 s

/-- `LicenseHeaderManager.format_template`: models
`template.format(year=..., copyright_holder=...)` for templates whose only
replacement fields are `{year}` and `{copyright_holder}` (the wire format of
the system); the year is rendered in decimal as Python does. -/
def format_template (template : Str) (year : Nat) (holder : Str) : Str :=
  replaceSub "{copyright_holder}".toList holder
    (replaceSub "{year}".toList (Nat.repr year).toList template)

/-- Reassembly (no-shebang branch) of `process_file`. -/
def assembleNoShebang (new_header cwh : Str) : Str :=
  if pyLStripNL cwh = [] then new_header ++ ['\n']
  else new_header ++ '\n' :: pyLStripNL cwh

/-- The `remaining_content` of the shebang branch of `process_file`: the
header-free content with the shebang prefix removed and leading newlines
dropped (the source applies `lstrip("\n")` twice). -/
def shebangRemainder (shebang cwh : Str) : Str :=
  pyLStripNL (if isPre shebang cwh then pyLStripNL (cwh.drop shebang.length) else cwh)

/-- Reassembly (shebang branch) of `process_file`: strip the shebang prefix
from the header-free content, drop leading newlines, and put the shebang back
in front of the new header. -/
def assembleShebang (shebang new_header cwh : Str) : Str :=
  if shebangRemainder shebang cwh = [] then shebang ++ '\n' :: new_header ++ ['\n']
  else shebang ++ '\n' :: new_header ++ '\n' :: shebangRemainder shebang cwh

/-- The final comparison of `process_file`: report `changed` exactly when the
new content differs from the original. -/
def resultWithChanged (fc new_content : Str) : Str × Bool :=
  if new_content = fc then (new_content, false) else (new_content, true)

/-- The pure content transformation of `LicenseHeaderManager.process_file`
(everything between the read and the conditional write): returns the new
content and the changed flag. -/
def process_content (fc : Str) (cs : CommentStyle) (formatted : Str) : Str × Bool :=
  resultWithChanged fc
    (match pySplitLines fc with
     | [] => assembleNoShebang (create_header_comment formatted cs) (remove_existing_header fc cs)
     | sb :: _ =>
       if isPre shebangMarker sb then
         assembleShebang sb (create_header_comment formatted cs) (remove_existing_header fc cs)
       else
         assembleNoShebang (create_header_comment formatted cs) (remove_existing_header fc cs))

/-- The last path component, as `pathlib.Path(file_path).name`: the last
non-empty slash-separated component (trailing slashes ignored). -/
def pathName (p : Str) : Str :=
  ((splitOnChar '/' p).filter fun comp => comp ≠ []).getLastD []

/-- The index of the last `'.'` in a name (`name.rfind('.')`), or `none`. -/
def rfindDot (s : Str) : Option Nat :=
  match s.reverse.findIdx? (fun c => c = '.') with
  | none => none
  | some j => some (s.length - 1 - j)

/-- `pathlib.Path(file_path).suffix`: the final `"."`-suffix of the name,
empty when the name has no dot, starts with its only dot, or ends in a dot. -/
def pathSuffix (p : Str) : Str :=
  let name := pathName p
  match rfindDot name with
  | none => []
  | some i => if 0 < i ∧ i < name.length - 1 then name.drop i else []

/-- Association-list lookup modelling the Python `dict.get`. -/
def lookupStyle (reg : List (Str × CommentStyle)) (k : Str) : Option CommentStyle :=
  match reg with
  | [] => none
  | p :: ps => if p.1 = k then some p.2 else lookupStyle ps k

/-- `CommentRegistry.get_comment_style`: look up the lower-cased extension. -/
def get_comment_style (reg : List (Str × CommentStyle)) (file_path : Str) : Option CommentStyle :=
  lookupStyle reg (pyLower (pathSuffix file_path))

/-- The hash-comment dialect (`.py`, `.sh`, `.yml`, …). -/
def hashStyle : CommentStyle := ⟨"#".toList, "#".toList, "#".toList⟩

/-- The C-style block dialect (`.js`, `.c`, `.java`, …). -/
def cStyle : CommentStyle := ⟨"/*".toList, " *".toList, " */".toList⟩

/-- The double-slash dialect (`.v`, `.sv`). -/
def slashStyle : CommentStyle := ⟨"//".toList, "//".toList, "//".toList⟩

/-- The HTML comment dialect (`.html`, `.xml`). -/
def htmlStyle : CommentStyle := ⟨"<!--".toList, "  ".toList, "-->".toList⟩

/-- The VHDL block dialect (`.vhdl`, `.vhd`). -/
def vhdlStyle : CommentStyle := ⟨"/*".toList, [], "*/".toList⟩

/-- The Markdown dialect (`.md`). -/
def mdStyle : CommentStyle := ⟨"<!--".toList, [], "-->".toList⟩

/-- `CommentRegistry.DEFAULT_MAPPINGS`. -/
def default_mappings : List (Str × CommentStyle) :=
  [ (".py".toList, hashStyle), (".pyx".toList, hashStyle),
    (".js".toList, cStyle), (".ts".toList, cStyle),
    (".jsx".toList, cStyle), (".tsx".toList, cStyle),
    (".java".toList, cStyle), (".c".toList, cStyle),
    (".cpp".toList, cStyle), (".cc".toList, cStyle),
    (".h".toList, cStyle), (".hpp".toList, cStyle),
    (".sh".toList, hashStyle), (".bash".toList, hashStyle),
    (".go".toList, cStyle), (".rs".toList, cStyle),
    (".css".toList, cStyle), (".scss".toList, cStyle),
    (".html".toList, htmlStyle), (".xml".toList, htmlStyle),
    (".yml".toList, hashStyle), (".yaml".toList, hashStyle),
    (".vhdl".toList, vhdlStyle), (".vhd".toList, vhdlStyle),
    (".v".toList, slashStyle), (".sv".toList, slashStyle),
    (".md".toList, mdStyle),
    (".hcl".toList, hashStyle), (".tf".toList, hashStyle) ]

/-- Run-level template error raised by `load_template`. -/
inductive TemplateError where
  | templateNotFound
deriving DecidableEq

/-- The outcome of `process_file`: the returned changed flag, or an
uncaught run-level error. -/
inductive PResult where
  | ok (changed : Bool)
  | error (e : TemplateError)
deriving DecidableEq

/-- The file-system events `process_file` can perform, in order. -/
inductive Ev where
  | readFile (path : Str)
  | loadTemplate
  | writeFile (path : Str) (content : Str)
deriving DecidableEq

/-- Recognize a write event. -/
def isWriteEv : Ev → Bool
  | .writeFile _ _ => true
  | _ => false

/-- `LicenseHeaderManager.process_file`, with its I/O sequenced as an event
trace: look up the dialect (skip if absent), read the file, load the template
(`load_template` strips the raw text; a missing template raises), format and
wrap it, rewrite the content, and write back only when it changed.  `tpl` is
the template file's content, `none` when the template file is missing. -/
def process_file (reg : List (Str × CommentStyle)) (tpl : Option Str) (year : Nat)
    (holder : Str) (fp : Str) (fc : Str) : List Ev × PResult :=
  match get_comment_style reg fp with
  | none => ([], .ok false)
  | some cs =>
    match tpl with
    | none => ([Ev.readFile fp, Ev.loadTemplate], .error .templateNotFound)
    | some t =>
      let formatted := format_template (pyStrip t) year holder
      let r := process_content fc cs formatted
      if r.2 then ([Ev.readFile fp, Ev.loadTemplate, Ev.writeFile fp r.1], .ok true)
      else ([Ev.readFile fp, Ev.loadTemplate], .ok false)

/-- The template text used by the spec's concrete scenarios. -/
def tplText : Str := "Copyright {year} {copyright_holder}".toList

/-- The template rendered with year 2024 and holder `Acme`. -/
def rendered2024 : Str := format_template tplText 2024 "Acme".toList

/-- The template rendered with year 2025 and holder `Acme`. -/
def rendered2025 : Str := format_template tplText 2025 "Acme".toList

/-- Join a (possibly empty) list of lines, each terminated by a newline:
the shape of the preserved-shebang prefix of a rewritten file. -/
def prefixJoin (ls : List Str) : Str :=
  ls.foldr (fun l acc => l ++ '\n' :: acc) []

theorem splitOnChar_ne_nil (sep : Char) (s : Str) : splitOnChar sep s ≠ [] := by
  induction s with
  | nil => simp [splitOnChar]
  | cons c rest ih =>
    simp only [splitOnChar]
    split
    · simp
    · cases h : splitOnChar sep rest with
      | nil => simp
      | cons l ls => simp

theorem not_mem_splitOnChar {sep : Char} {s l : Str}
    (h : l ∈ splitOnChar sep s) : sep ∉ l := by
  induction s generalizing l with
  | nil =>
    simp only [splitOnChar, List.mem_singleton] at h
    subst h; simp
  | cons c rest ih =>
    simp only [splitOnChar] at h
    by_cases hc : c = sep
    · rw [if_pos hc] at h
      rcases List.mem_cons.mp h with h1 | h2
      · subst h1; simp
      · exact ih h2
    · rw [if_neg hc] at h
      cases hsp : splitOnChar sep rest with
      | nil => exact absurd hsp (splitOnChar_ne_nil sep rest)
      | cons m ms =>
        rw [hsp] at h
        rcases List.mem_cons.mp h with h1 | h2
        · subst h1
          intro hmem
          rcases List.mem_cons.mp hmem with h3 | h4
          · exact hc h3.symm
          · exact ih (hsp ▸ List.mem_cons_self m ms) h4
        · exact ih (hsp ▸ List.mem_cons_of_mem m h2)

theorem joinLines_pySplitLines (s : Str) : joinLines (pySplitLines s) = s := by
  unfold pySplitLines
  induction s with
  | nil => rfl
  | cons c rest ih =>
    simp only [splitOnChar]
    split
    · rename_i hc
      cases hsp : splitOnChar '\n' rest with
      | nil => exact absurd hsp (splitOnChar_ne_nil '\n' rest)
      | cons l ls =>
        rw [hsp] at ih
        simp only [joinLines, List.nil_append]
        rw [ih, hc]
    · cases hsp : splitOnChar '\n' rest with
      | nil => exact absurd hsp (splitOnChar_ne_nil '\n' rest)
      | cons l ls =>
        rw [hsp] at ih
        cases ls with
        | nil => simp only [joinLines] at ih ⊢; rw [ih]
        | cons l₂ ls₂ =>
          simp only [joinLines, List.cons_append] at ih ⊢
          rw [ih]

theorem pySplitLines_no_nl {a : Str} (h : '\n' ∉ a) : pySplitLines a = [a] := by
  unfold pySplitLines
  induction a with
  | nil => rfl
  | cons c rest ih =>
    have hc : ¬ c = '\n' := fun hc => h (hc ▸ List.mem_cons_self c rest)
    have hrest : '\n' ∉ rest := fun hm => h (List.mem_cons_of_mem c hm)
    simp only [splitOnChar, if_neg hc, ih hrest]

theorem pySplitLines_append {a : Str} (b : Str) (h : '\n' ∉ a) :
    pySplitLines (a ++ '\n' :: b) = a :: pySplitLines b := by
  unfold pySplitLines
  induction a with
  | nil => simp [splitOnChar]
  | cons c rest ih =>
    have hc : ¬ c = '\n' := fun hc => h (hc ▸ List.mem_cons_self c rest)
    have hrest : '\n' ∉ rest := fun hm => h (List.mem_cons_of_mem c hm)
    have step : splitOnChar '\n' ((c :: rest) ++ '\n' :: b)
        = match splitOnChar '\n' (rest ++ '\n' :: b) with
          | [] => [[c]]
          | l :: ls => (c :: l) :: ls := by
      rw [List.cons_append]
      simp only [splitOnChar, if_neg hc]
    rw [step, ih hrest]

theorem pySplitLines_joinLines {ls : List Str} (h0 : ls ≠ [])
    (h : ∀ l ∈ ls, '\n' ∉ l) : pySplitLines (joinLines ls) = ls := by
  induction ls with
  | nil => exact absurd rfl h0
  | cons l rest ih =>
    cases rest with
    | nil =>
      simp only [joinLines]
      exact pySplitLines_no_nl (h l (List.mem_cons_self l []))
    | cons l₂ ls₂ =>
      simp only [joinLines]
      rw [pySplitLines_append _ (h l (List.mem_cons_self l (l₂ :: ls₂)))]
      rw [ih (by simp) (fun x hx => h x (List.mem_cons_of_mem l hx))]

theorem shebangSplit_append (ls : List Str) :
    (shebangSplit ls).1 ++ (shebangSplit ls).2 = ls := by
  cases ls with
  | nil => rfl
  | cons l rest =>
    simp only [shebangSplit]
    split <;> simp

theorem shebangSplit_snd_suffix (ls : List Str) : (shebangSplit ls).2 <:+ ls := by
  cases ls with
  | nil => exact List.suffix_rfl
  | cons l rest =>
    simp only [shebangSplit]
    split
    · exact List.suffix_cons l rest
    · exact List.suffix_rfl

theorem skipBlank_suffix (ls : List Str) : skipBlank ls <:+ ls := by
  induction ls with
  | nil => exact List.suffix_rfl
  | cons l rest ih =>
    simp only [skipBlank]
    split
    · exact ih.trans (List.suffix_cons l rest)
    · exact List.suffix_rfl

theorem skipBlank_head {ls : List Str} {x : Str} {xs : List Str}
    (h : skipBlank ls = x :: xs) : pyStrip x ≠ [] := by
  induction ls with
  | nil => simp [skipBlank] at h
  | cons l rest ih =>
    simp only [skipBlank] at h
    split at h
    · exact ih h
    · rename_i hb
      cases h
      exact hb

theorem matchHeaderLines_suffix (es ls : List Str) : matchHeaderLines es ls <:+ ls := by
  induction ls generalizing es with
  | nil =>
    cases es with
    | nil => exact List.suffix_rfl
    | cons e es => exact List.nil_suffix
  | cons l rest ih =>
    cases es with
    | nil => exact List.suffix_rfl
    | cons e es =>
      simp only [matchHeaderLines]
      split
      · exact (ih es).trans (List.suffix_cons l rest)
      · exact List.suffix_rfl

theorem dropBlockEnd_suffix (cs : CommentStyle) (ls : List Str) :
    dropBlockEnd cs ls <:+ ls := by
  induction ls with
  | nil => exact List.suffix_rfl
  | cons l rest ih =>
    simp only [dropBlockEnd]
    split
    · exact List.suffix_cons l rest
    · exact ih.trans (List.suffix_cons l rest)

theorem pyRStrip_front (s : Str) : pyRStrip s <+: s := by
  rw [← List.reverse_suffix]
  unfold pyRStrip
  rw [List.reverse_reverse]
  exact List.dropWhile_suffix isWsChar

theorem pyStrip_inside (s : Str) : pyStrip s <:+: s := by
  have h1 : pyStrip s = pyRStrip (s.dropWhile isWsChar) := rfl
  rw [h1]
  exact (pyRStrip_front _).isInfix.trans (List.dropWhile_suffix _).isInfix

theorem isPre_iff {p s : Str} : isPre p s = true ↔ p <+: s := by
  induction p generalizing s with
  | nil => simp [isPre, List.nil_prefix]
  | cons a as ih =>
    cases s with
    | nil =>
      have he : isPre (a :: as) [] = false := rfl
      rw [he]
      simp [List.prefix_nil]
    | cons b bs =>
      simp only [isPre]
      split
      · rename_i hab
        rw [List.cons_prefix_cons, ih]
        simp [hab]
      · rename_i hab
        simp [List.cons_prefix_cons, hab]

theorem containsSub_iff_infix {s sub : Str} : containsSub s sub = true ↔ sub <:+: s := by
  induction s with
  | nil =>
    simp only [containsSub]
    split
    · rename_i h
      have hp := isPre_iff.mp h
      rw [List.prefix_nil] at hp
      simp [hp]
    · rename_i h
      simp only [Bool.false_eq_true, false_iff]
      intro hinf
      have hsub : sub = [] := List.eq_nil_of_infix_nil hinf
      exact h (by simp [hsub, isPre])
  | cons c rest ih =>
    simp only [containsSub]
    split
    · rename_i h
      simp only [true_iff]
      exact (isPre_iff.mp h).isInfix
    · rename_i h
      rw [ih]
      constructor
      · exact List.infix_cons
      · intro hinf
        rcases List.infix_cons_iff.mp hinf with hp | hi
        · exact absurd (isPre_iff.mpr hp) h
        · exact hi

theorem isPre_refl (s : Str) : isPre s s = true := isPre_iff.mpr List.prefix_rfl

theorem joinLines_cons_ne_nil {l : Str} {ls : List Str} (h : l ≠ []) :
    joinLines (l :: ls) ≠ [] := by
  cases ls with
  | nil => simpa [joinLines] using h
  | cons l₂ ls₂ => simp [joinLines]

theorem collectBlockHeader_all {cs : CommentStyle} {ls : List Str}
    (h : ∀ l ∈ ls, containsSub (pyStrip l) cs.«end» = false) :
    collectBlockHeader cs ls = ls := by
  induction ls with
  | nil => rfl
  | cons l rest ih =>
    simp only [collectBlockHeader]
    rw [if_neg, ih (fun x hx => h x (List.mem_cons_of_mem l hx))]
    simp [h l (List.mem_cons_self l rest)]

theorem dropBlockEnd_all {cs : CommentStyle} {ls : List Str}
    (h : ∀ l ∈ ls, containsSub l cs.«end» = false) :
    dropBlockEnd cs ls = [] := by
  induction ls with
  | nil => rfl
  | cons l rest ih =>
    simp only [dropBlockEnd]
    rw [if_neg, ih (fun x hx => h x (List.mem_cons_of_mem l hx))]
    simp [h l (List.mem_cons_self l rest)]

theorem lookupStyle_eq_none {reg : List (Str × CommentStyle)} {k : Str}
    (h : ∀ p ∈ reg, p.1 ≠ k) : lookupStyle reg k = none := by
  induction reg with
  | nil => rfl
  | cons p ps ih =>
    simp only [lookupStyle]
    rw [if_neg (h p (List.mem_cons_self p ps))]
    exact ih (fun q hq => h q (List.mem_cons_of_mem p hq))

theorem resultWithChanged_fst (fc x : Str) : (resultWithChanged fc x).1 = x := by
  unfold resultWithChanged
  split <;> rfl

/-- C1: the idempotence contract fails on the code.  On the file content
`"   \ncode"` (a whitespace-only first line) with the hash dialect and the
rendered header `Copyright 2024 Acme`, the first application yields
`"# Copyright 2024 Acme\n   \ncode"` with `changed = true`, and the second
application yields the different content `"# Copyright 2024 Acme\ncode"` and
again reports `changed = true`: the blank line survives the first rewrite
(`lstrip("\n")` does not remove it) but is consumed by the second run's
header removal. -/
theorem process_second_run_still_changes :
    (process_content "   \ncode".toList hashStyle rendered2024).1
        = "# Copyright 2024 Acme\n   \ncode".toList
    ∧ (process_content "   \ncode".toList hashStyle rendered2024).2 = true
    ∧ (process_content (process_content "   \ncode".toList hashStyle rendered2024).1
        hashStyle rendered2024).1 = "# Copyright 2024 Acme\ncode".toList
    ∧ (process_content (process_content "   \ncode".toList hashStyle rendered2024).1
        hashStyle rendered2024).2 = true := by decide

/-- C2 counterexample: removal does not delete exactly the detected block's
lines.  On `"# a\n\n# b\ncode"` with the hash dialect, detection returns the
block `"# a\n# b"`, yet removal (which matches the detected lines
consecutively and stops at the blank line) leaves `"# b\ncode"`, not
`"code"`: the detected line `"# b"` survives. -/
theorem remove_header_not_exact_cx :
    extract_existing_header "# a\n\n# b\ncode".toList hashStyle = some "# a\n# b".toList
    ∧ remove_existing_header "# a\n\n# b\ncode".toList hashStyle = "# b\ncode".toList
    ∧ "# b\ncode".toList ≠ "code".toList := by decide

/-- C3: the wrap/detect round trip fails for the registered C-style dialect
`{start := "/*", middle := " *", end := " */"}`.  Detection does find a block
in the wrapped header (the whole text, because `" */" in line.strip()` never
matches the end line `" */"` whose stripped form is `"*/"`), but de-commenting
it yields `"Copyright 2025 Acme\n/"` — a stray `"/"` line — instead of the
rendered text, even after per-line trailing-whitespace normalization. -/
theorem roundtrip_fails_for_c_style :
    extract_existing_header (create_header_comment rendered2025 cStyle) cStyle
        = some (create_header_comment rendered2025 cStyle)
    ∧ extract_header_content (create_header_comment rendered2025 cStyle) cStyle
        = "Copyright 2025 Acme\n/".toList
    ∧ (pySplitLines "Copyright 2025 Acme\n/".toList).map pyRStrip
        ≠ (pySplitLines rendered2025).map pyRStrip := by decide

/-- C4: concrete line-dialect scenario.  With the hash dialect, template
`"Copyright {year} {copyright_holder}"`, holder `Acme`, year 2024, and input
`"print('hi')\n"`, processing yields exactly
`"# Copyright 2024 Acme\nprint('hi')\n"` with `changed = true`, and
re-processing that result reports `changed = false`. -/
theorem concrete_line_scenario :
    process_content "print('hi')\n".toList hashStyle rendered2024
        = ("# Copyright 2024 Acme\nprint('hi')\n".toList, true)
    ∧ process_content "# Copyright 2024 Acme\nprint('hi')\n".toList hashStyle rendered2024
        = ("# Copyright 2024 Acme\nprint('hi')\n".toList, false) := by decide

/-- C5: concrete block-dialect replacement.  With the C-style dialect, holder
`Acme`, year 2025, and input `"/*\n * Copyright 2020 Old\n */\nbody();\n"`,
processing yields exactly `"/*\n * Copyright 2025 Acme\n */\nbody();\n"`:
the stale block is fully replaced and the body untouched. -/
theorem concrete_block_replacement :
    process_content "/*\n * Copyright 2020 Old\n */\nbody();\n".toList cStyle rendered2025
        = ("/*\n * Copyright 2025 Acme\n */\nbody();\n".toList, true) := by decide

/-- C7 counterexample: `start = middle` alone does not make wrapping
line-oriented.  For the dialect `{start := "#", middle := "#", end := "@"}`
(start equals middle, end differs) `create_header_comment` emits the
block-oriented form `"#\n# T\n@"` — with a separate start line and a separate
end line — not the line-oriented form `"# T"`. -/
theorem wrap_start_eq_middle_cx :
    (⟨"#".toList, "#".toList, "@".toList⟩ : CommentStyle).start
        = (⟨"#".toList, "#".toList, "@".toList⟩ : CommentStyle).middle
    ∧ create_header_comment "T".toList ⟨"#".toList, "#".toList, "@".toList⟩
        = "#\n# T\n@".toList
    ∧ create_header_comment "T".toList ⟨"#".toList, "#".toList, "@".toList⟩
        ≠ joinLines ((pySplitLines "T".toList).map fun l =>
            pyRStrip ("#".toList ++ ' ' :: l)) := by decide

/-- C8 counterexample: the template failure does not precede all per-file
I/O.  With the default registry, a missing template, and candidate file
`a.py`, `process_file` raises `templateNotFound` only after the candidate
file has been read: the event trace is `[readFile "a.py", loadTemplate]`,
so a file read occurs before the template failure surfaces. -/
theorem template_missing_read_first_cx :
    process_file default_mappings none 2024 "Acme".toList "a.py".toList "x".toList
        = ([Ev.readFile "a.py".toList, Ev.loadTemplate], .error .templateNotFound)
    ∧ Ev.readFile "a.py".toList
        ∈ (process_file default_mappings none 2024 "Acme".toList "a.py".toList "x".toList).1 := by
  decide

/-- C2 (amended): if no header block is detected, removal returns the text
unchanged; and in every case the result of removal is the preserved shebang
prefix followed by an unmodified suffix of the original lines — removal only
ever deletes a prefix of the post-shebang lines (the re-scanned region plus
blank-line runs), so all text after the removed region is byte-identical.
(The original claim — that exactly the detected block's lines are removed —
is refuted by `remove_header_not_exact_cx`.) -/
theorem remove_header_frame (fc : Str) (cs : CommentStyle) :
    (extract_existing_header fc cs = none → remove_existing_header fc cs = fc)
    ∧ ∃ tail, tail <:+ pySplitLines fc ∧
        remove_existing_header fc cs
          = joinLines ((shebangSplit (pySplitLines fc)).1 ++ tail) := by
  have hfc : joinLines ((shebangSplit (pySplitLines fc)).1 ++ (shebangSplit (pySplitLines fc)).2)
      = fc := by
    rw [shebangSplit_append, joinLines_pySplitLines]
  constructor
  · intro h
    unfold remove_existing_header
    rw [h]
  · unfold remove_existing_header
    split
    · exact ⟨(shebangSplit (pySplitLines fc)).2, shebangSplit_snd_suffix _, hfc.symm⟩
    · rename_i hdr hE
      split
      · exact ⟨(shebangSplit (pySplitLines fc)).2, shebangSplit_snd_suffix _, hfc.symm⟩
      · split
        · exact ⟨(shebangSplit (pySplitLines fc)).2, shebangSplit_snd_suffix _, hfc.symm⟩
        · rename_i first rest₂ hSk
          have hsnd : (first :: rest₂) <:+ pySplitLines fc := by
            rw [← hSk]
            exact (skipBlank_suffix _).trans (shebangSplit_snd_suffix _)
          split
          · exact ⟨skipBlank (matchHeaderLines (pySplitLines hdr) (first :: rest₂)),
              ((skipBlank_suffix _).trans (matchHeaderLines_suffix _ _)).trans hsnd, rfl⟩
          · split
            · exact ⟨skipBlank (dropBlockEnd cs (first :: rest₂)),
                ((skipBlank_suffix _).trans (dropBlockEnd_suffix _ _)).trans hsnd, rfl⟩
            · exact ⟨first :: rest₂, hsnd, rfl⟩

/-- Witness for `remove_header_frame` at a concrete input: on `"code"` with
the hash dialect no header is detected, so removal returns the text
unchanged. -/
theorem remove_header_frame_wit :
    remove_existing_header "code".toList hashStyle = "code".toList :=
  (remove_header_frame "code".toList hashStyle).1 (by decide)

/-- C6: shebang preservation.  For any file whose first line starts with
`"#!"` and any dialect, the output of processing is the unchanged first line,
then a newline, then the freshly wrapped header, then a newline, then the
remaining content; in particular the first line of the output is
byte-identical to the input's first line. -/
theorem shebang_preserved (fc : Str) (cs : CommentStyle) (tpl : Str) (sb : Str)
    (rest : List Str) (h1 : pySplitLines fc = sb :: rest)
    (h2 : isPre shebangMarker sb = true) :
    (∃ rc, (process_content fc cs tpl).1
        = sb ++ '\n' :: create_header_comment tpl cs ++ '\n' :: rc)
    ∧ (pySplitLines (process_content fc cs tpl).1).headD [] = sb := by
  have hfst : (process_content fc cs tpl).1
      = assembleShebang sb (create_header_comment tpl cs) (remove_existing_header fc cs) := by
    unfold process_content
    rw [h1, resultWithChanged_fst]
    simp only [if_pos h2]
  have hshape : ∃ rc,
      assembleShebang sb (create_header_comment tpl cs) (remove_existing_header fc cs)
        = sb ++ '\n' :: create_header_comment tpl cs ++ '\n' :: rc := by
    unfold assembleShebang
    split
    · exact ⟨[], rfl⟩
    · exact ⟨_, rfl⟩
  obtain ⟨rc, hrc⟩ := hshape
  have hnl : '\n' ∉ sb := not_mem_splitOnChar (h1 ▸ List.mem_cons_self sb rest)
  refine ⟨⟨rc, by rw [hfst, hrc]⟩, ?_⟩
  rw [hfst, hrc, List.append_assoc, List.cons_append, pySplitLines_append _ hnl]
  rfl

/-- Witness for `shebang_preserved`: a concrete shebang file under the hash
dialect keeps its first line. -/
theorem shebang_preserved_wit :
    (∃ rc, (process_content "#!/usr/bin/env X\ncode\n".toList hashStyle "T".toList).1
        = "#!/usr/bin/env X".toList ++ '\n' :: create_header_comment "T".toList hashStyle
            ++ '\n' :: rc)
    ∧ (pySplitLines
        (process_content "#!/usr/bin/env X\ncode\n".toList hashStyle "T".toList).1).headD []
        = "#!/usr/bin/env X".toList :=
  shebang_preserved "#!/usr/bin/env X\ncode\n".toList hashStyle "T".toList
    "#!/usr/bin/env X".toList ["code".toList, []] (by decide) (by decide)

/-- C7 (amended): wrapping is line-oriented exactly for dialects with all
three markers equal.  When `start = middle = end` (and `start` contains no
newline), the wrapped header has exactly one line per template line, each
equal to `start ++ " " ++ line` with trailing whitespace trimmed, and no
separate start or end line is appended.  (That `start = middle` alone does
not suffice is shown by `wrap_start_eq_middle_cx`.) -/
theorem wrap_all_equal_line_oriented (content : Str) (cs : CommentStyle)
    (h1 : cs.start = cs.middle) (h2 : cs.middle = cs.«end») (h3 : '\n' ∉ cs.start) :
    pySplitLines (create_header_comment content cs)
      = (pySplitLines content).map fun l => pyRStrip (cs.start ++ ' ' :: l) := by
  unfold create_header_comment
  rw [if_pos ⟨h1, h2⟩]
  apply pySplitLines_joinLines
  · intro hmap
    rw [List.map_eq_nil_iff] at hmap
    exact splitOnChar_ne_nil _ _ hmap
  · intro l₂ hl₂
    rcases List.mem_map.mp hl₂ with ⟨l, hl, hmap⟩
    subst hmap
    intro hmem
    have hmem₂ := (pyRStrip_front _).subset hmem
    rcases List.mem_append.mp hmem₂ with hx | hx
    · exact h3 hx
    · rcases List.mem_cons.mp hx with hx | hx
      · exact absurd hx (by decide)
      · exact not_mem_splitOnChar hl hx

/-- Witness for `wrap_all_equal_line_oriented`: the hash dialect wraps
line-by-line. -/
theorem wrap_all_equal_line_oriented_wit :
    pySplitLines (create_header_comment "Hello".toList hashStyle)
      = (pySplitLines "Hello".toList).map fun l => pyRStrip (hashStyle.start ++ ' ' :: l) :=
  wrap_all_equal_line_oriented "Hello".toList hashStyle (by decide) (by decide) (by decide)

/-- C8 (amended): when the template resource cannot be read, every processed
file either is skipped (no registered dialect) or fails with
`templateNotFound`, and in all cases no write event occurs, so every file's
content is left unchanged — but the failure surfaces only after the candidate
file has been read (`template_missing_read_first_cx`), because the template
is loaded per file, after that file's read. -/
theorem template_missing_no_write (reg : List (Str × CommentStyle)) (year : Nat)
    (holder fp fc : Str) :
    (∀ e ∈ (process_file reg none year holder fp fc).1, isWriteEv e = false)
    ∧ ((process_file reg none year holder fp fc).2 = .ok false
        ∨ (process_file reg none year holder fp fc).2 = .error .templateNotFound) := by
  unfold process_file
  cases hg : get_comment_style reg fp with
  | none =>
    constructor
    · intro e he
      simp at he
    · left; rfl
  | some cs =>
    constructor
    · intro e he
      simp only [List.mem_cons, List.not_mem_nil, or_false] at he
      rcases he with rfl | rfl
      · rfl
      · rfl
    · right; rfl

/-- Witness for `template_missing_no_write` at a concrete registered file. -/
theorem template_missing_no_write_wit :
    (process_file default_mappings none 2024 "Acme".toList "a.py".toList "x".toList).2
        = .ok false
    ∨ (process_file default_mappings none 2024 "Acme".toList "a.py".toList "x".toList).2
        = .error .templateNotFound :=
  (template_missing_no_write default_mappings 2024 "Acme".toList "a.py".toList "x".toList).2

/-- C9: unregistered extension handling.  If no registry entry matches the
path's case-folded suffix, lookup returns `none`; processing such a file
performs no I/O events at all (no read, no write, no transformation) and
reports `changed = false`; and lookup depends only on the lower-cased
suffix, so any path with the same case-folded suffix is likewise absent. -/
theorem unregistered_extension_skipped (reg : List (Str × CommentStyle))
    (tpl : Option Str) (year : Nat) (holder fp fc : Str)
    (h : ∀ p ∈ reg, p.1 ≠ pyLower (pathSuffix fp)) :
    get_comment_style reg fp = none
    ∧ process_file reg tpl year holder fp fc = ([], .ok false)
    ∧ ∀ fp₂ : Str, pyLower (pathSuffix fp₂) = pyLower (pathSuffix fp) →
        get_comment_style reg fp₂ = none := by
  have hg : get_comment_style reg fp = none := lookupStyle_eq_none h
  refine ⟨hg, ?_, ?_⟩
  · unfold process_file
    rw [hg]
  · intro fp₂ he
    unfold get_comment_style
    rw [he]
    exact lookupStyle_eq_none h

/-- Witness for `unregistered_extension_skipped`: `.zzz` is not in the
default registry, so the file is skipped with no events. -/
theorem unregistered_extension_skipped_wit :
    get_comment_style default_mappings "file.zzz".toList = none
    ∧ process_file default_mappings none 2024 "Acme".toList "file.zzz".toList "x".toList
        = ([], .ok false) := by
  have h := unregistered_extension_skipped default_mappings none 2024 "Acme".toList
    "file.zzz".toList "x".toList (by decide)
  exact ⟨h.1, h.2.1⟩

/-- C10: unterminated block header consumes the whole file.  For a
block-oriented dialect (`start ≠ middle`), if the first non-blank line after
the optional shebang starts (after stripping) with the start marker and no
line of the file contains the end marker, then removal deletes everything
from the block start to end-of-file, and processing yields exactly the
preserved shebang (if any) followed by the new header and a final newline. -/
theorem unterminated_block_consumes_file (fc : Str) (cs : CommentStyle) (tpl : Str)
    (first : Str) (rest₂ : List Str)
    (hsm : ¬ cs.start = cs.middle)
    (hsk : skipBlank (shebangSplit (pySplitLines fc)).2 = first :: rest₂)
    (hpre : isPre cs.start (pyStrip first) = true)
    (hnoend : ∀ l ∈ pySplitLines fc, containsSub l cs.«end» = false) :
    (process_content fc cs tpl).1
      = prefixJoin (shebangSplit (pySplitLines fc)).1
          ++ create_header_comment tpl cs ++ ['\n'] := by
  have hsnd : (first :: rest₂) <:+ pySplitLines fc := by
    rw [← hsk]
    exact (skipBlank_suffix _).trans (shebangSplit_snd_suffix _)
  have hnoend₂ : ∀ l ∈ (first :: rest₂), containsSub l cs.«end» = false :=
    fun l hl => hnoend l (hsnd.subset hl)
  have hnoendS : ∀ l ∈ (first :: rest₂), containsSub (pyStrip l) cs.«end» = false := by
    intro l hl
    cases hb : containsSub (pyStrip l) cs.«end» with
    | false => rfl
    | true =>
      have hinf := containsSub_iff_infix.mp hb
      have ht : containsSub l cs.«end» = true :=
        containsSub_iff_infix.mpr (hinf.trans (pyStrip_inside l))
      rw [hnoend₂ l hl] at ht
      exact Bool.noConfusion ht
  have hfirst_ne : first ≠ [] := by
    intro h0
    have hsb := skipBlank_head hsk
    rw [h0] at hsb
    exact hsb rfl
  have hex : extract_existing_header fc cs = some (joinLines (first :: rest₂)) := by
    unfold extract_existing_header
    rw [hsk]
    simp only [if_neg hsm, if_pos hpre]
    unfold headerOrNone
    rw [collectBlockHeader_all hnoendS, if_neg (List.cons_ne_nil first rest₂)]
  have hrem : remove_existing_header fc cs
      = joinLines (shebangSplit (pySplitLines fc)).1 := by
    unfold remove_existing_header
    rw [hex]
    simp only [if_neg (joinLines_cons_ne_nil hfirst_ne)]
    rw [hsk]
    simp only [if_neg hsm, if_pos hpre]
    rw [dropBlockEnd_all hnoend₂]
    simp [skipBlank]
  cases hlines : pySplitLines fc with
  | nil => exact absurd hlines (splitOnChar_ne_nil _ _)
  | cons l₀ ls₀ =>
    have hpc : (process_content fc cs tpl).1
        = (if isPre shebangMarker l₀ then
            assembleShebang l₀ (create_header_comment tpl cs) (remove_existing_header fc cs)
          else
            assembleNoShebang (create_header_comment tpl cs) (remove_existing_header fc cs)) := by
      unfold process_content
      rw [hlines, resultWithChanged_fst]
    rw [hlines] at hrem
    by_cases hsb : isPre shebangMarker l₀ = true
    · have hpres : (shebangSplit (l₀ :: ls₀)).1 = [l₀] := by
        simp [shebangSplit, hsb]
      rw [hpc, if_pos hsb, hrem, hpres]
      have hj : joinLines [l₀] = l₀ := rfl
      rw [hj]
      unfold assembleShebang shebangRemainder
      rw [if_pos (isPre_refl l₀), List.drop_length]
      have hlz : pyLStripNL (pyLStripNL ([] : Str)) = [] := rfl
      rw [hlz, if_pos rfl]
      simp [prefixJoin, List.append_assoc]
    · have hpres : (shebangSplit (l₀ :: ls₀)).1 = [] := by
        simp [shebangSplit, hsb]
      rw [hpc, if_neg hsb, hrem, hpres]
      have hj : joinLines ([] : List Str) = [] := rfl
      rw [hj]
      unfold assembleNoShebang
      have hlz : pyLStripNL ([] : Str) = [] := rfl
      rw [hlz, if_pos rfl]
      simp [prefixJoin]

/-- Witness for `unterminated_block_consumes_file`: a C-style block opener
with no closing marker swallows the body, leaving only the new header. -/
theorem unterminated_block_consumes_file_wit :
    (process_content "/* open\nbody".toList cStyle "T".toList).1
      = prefixJoin (shebangSplit (pySplitLines "/* open\nbody".toList)).1
          ++ create_header_comment "T".toList cStyle ++ ['\n'] :=
  unterminated_block_consumes_file "/* open\nbody".toList cStyle "T".toList
    "/* open".toList ["body".toList] (by decide) (by decide) (by decide) (by decide)
